import Mathlib

namespace DocxToLatex

/-- An OMML element: tag (local name), optional `m:val` attribute, optional
text content, and child elements, mirroring the lxml element trees the
converter walks. -/
inductive Elem where
  | mk (tag : String) (val : Option String) (text : Option String) (children : List Elem)

def Elem.tag : Elem → String
  | .mk t _ _ _ => t

def Elem.val : Elem → Option String
  | .mk _ v _ _ => v

def Elem.text : Elem → Option String
  | .mk _ _ x _ => x

def Elem.children : Elem → List Elem
  | .mk _ _ _ c => c

mutual
/-- `elem.iter(tag)`: all descendants (self included) with the given tag,
in document (preorder) order. -/
def iterTag : Elem → String → List Elem
  | .mk t v x cs, q => (if t = q then [Elem.mk t v x cs] else []) ++ iterTagList cs q

def iterTagList : List Elem → String → List Elem
  | [], _ => []
  | c :: cs, q => iterTag c q ++ iterTagList cs q
end

mutual
/-- Fuel bound for the converter recursion: total node count (at least the
tree depth at every subtree). -/
def fuelOf : Elem → Nat
  | .mk _ _ _ cs => fuelList cs + 1

def fuelList : List Elem → Nat
  | [] => 0
  | c :: cs => fuelOf c + fuelList cs
end

/-- `_get_element`: first child with the given local tag name. -/
def getElement (p : Elem) (q : String) : Option Elem :=
  p.children.find? (fun c => c.tag == q)

/-- The apostrophe character as a string (used by the prime mappings). -/
def apos : String := (Char.ofNat 39).toString

/-- First character of a string, if any. -/
def strHead? (s : String) : Option Char :=
  s.data.head?

/-- Last character of a string, if any. -/
def strLast? (s : String) : Option Char :=
  s.data.getLast?

/-- Python `s.startswith("\\")` (kernel-evaluable form). -/
def startsWithBackslash (s : String) : Bool :=
  strHead? s == some '\\'

/-- Python `str.lower`, modelled as per-character ASCII lowercasing (the
function-name tables are all ASCII). -/
def pyLower (s : String) : String :=
  String.mk (s.data.map Char.toLower)

/-- `"".join`, kernel-evaluable. -/
def concatAll (l : List String) : String :=
  l.foldl (· ++ ·) ""

/-- `sep.join(parts)`, kernel-evaluable. -/
def joinSep (sep : String) : List String → String
  | [] => ""
  | [x] => x
  | x :: xs => x ++ sep ++ joinSep sep xs

/-- `GREEK_LOWER` from `symbols.py`. -/
def greekLower : List (Char × String) :=
  [('α', "\\alpha"), ('β', "\\beta"), ('γ', "\\gamma"), ('δ', "\\delta"),
   ('ε', "\\varepsilon"), ('ϵ', "\\epsilon"), ('ζ', "\\zeta"), ('η', "\\eta"),
   ('θ', "\\theta"), ('ϑ', "\\vartheta"), ('ι', "\\iota"), ('κ', "\\kappa"),
   ('ϰ', "\\varkappa"), ('λ', "\\lambda"), ('μ', "\\mu"), ('ν', "\\nu"),
   ('ξ', "\\xi"), ('π', "\\pi"), ('ϖ', "\\varpi"), ('ρ', "\\rho"),
   ('ϱ', "\\varrho"), ('σ', "\\sigma"), ('ς', "\\varsigma"), ('τ', "\\tau"),
   ('υ', "\\upsilon"), ('φ', "\\varphi"), ('ϕ', "\\phi"), ('χ', "\\chi"),
   ('ψ', "\\psi"), ('ω', "\\omega")]

/-- `GREEK_UPPER` from `symbols.py`. -/
def greekUpper : List (Char × String) :=
  [('Α', "A"), ('Β', "B"), ('Γ', "\\Gamma"), ('Δ', "\\Delta"), ('Ε', "E"),
   ('Ζ', "Z"), ('Η', "H"), ('Θ', "\\Theta"), ('Ι', "I"), ('Κ', "K"),
   ('Λ', "\\Lambda"), ('Μ', "M"), ('Ν', "N"), ('Ξ', "\\Xi"), ('Ο', "O"),
   ('Π', "\\Pi"), ('Ρ', "P"), ('Σ', "\\Sigma"), ('Τ', "T"),
   ('Υ', "\\Upsilon"), ('Φ', "\\Phi"), ('Χ', "X"), ('Ψ', "\\Psi"),
   ('Ω', "\\Omega")]

/-- `OPERATORS` from `symbols.py`, in source order (the key `⊥` occurs twice
there; Python dict literals keep the last occurrence, which the reversed
lookup below reproduces). -/
def operatorsTable : List (Char × String) :=
  [('%', "\\%"), ('#', "\\#"), ('&', "\\&"), ('$', "\\$"), ('_', "\\_"),
   ('−', "-"), ('×', "\\times"), ('÷', "\\div"), ('±', "\\pm"), ('∓', "\\mp"),
   ('·', "\\cdot"), ('∗', "\\ast"), ('⋆', "\\star"), ('∘', "\\circ"),
   ('•', "\\bullet"),
   ('≠', "\\neq"), ('≤', "\\leq"), ('≥', "\\geq"), ('≪', "\\ll"),
   ('≫', "\\gg"), ('≈', "\\approx"), ('≃', "\\simeq"), ('≅', "\\cong"),
   ('≡', "\\equiv"), ('∼', "\\sim"), ('∝', "\\propto"), ('≺', "\\prec"),
   ('≻', "\\succ"), ('⪯', "\\preceq"), ('⪰', "\\succeq"),
   ('→', "\\rightarrow"), ('←', "\\leftarrow"), ('↔', "\\leftrightarrow"),
   ('⇒', "\\Rightarrow"), ('⇐', "\\Leftarrow"), ('⇔', "\\Leftrightarrow"),
   ('↦', "\\mapsto"), ('↑', "\\uparrow"), ('↓', "\\downarrow"),
   ('⇑', "\\Uparrow"), ('⇓', "\\Downarrow"), ('↗', "\\nearrow"),
   ('↘', "\\searrow"), ('↙', "\\swarrow"), ('↖', "\\nwarrow"),
   ('⟵', "\\longleftarrow"), ('⟶', "\\longrightarrow"),
   ('⟷', "\\longleftrightarrow"), ('⟹', "\\Longrightarrow"),
   ('⟸', "\\Longleftarrow"), ('⟺', "\\Longleftrightarrow"),
   ('∈', "\\in"), ('∉', "\\notin"), ('∋', "\\ni"), ('⊂', "\\subset"),
   ('⊃', "\\supset"), ('⊆', "\\subseteq"), ('⊇', "\\supseteq"),
   ('⊊', "\\subsetneq"), ('⊋', "\\supsetneq"), ('∪', "\\cup"),
   ('∩', "\\cap"), ('∅', "\\emptyset"), ('⊕', "\\oplus"), ('⊗', "\\otimes"),
   ('⊖', "\\ominus"), ('⊘', "\\oslash"),
   ('∧', "\\land"), ('∨', "\\lor"), ('¬', "\\neg"), ('∀', "\\forall"),
   ('∃', "\\exists"), ('∄', "\\nexists"), ('⊢', "\\vdash"), ('⊣', "\\dashv"),
   ('⊤', "\\top"), ('⊥', "\\bot"), ('⊨', "\\models"),
   ('∂', "\\partial"), ('∞', "\\infty"), ('∇', "\\nabla"), ('√', "\\sqrt"),
   ('∫', "\\int"), ('∬', "\\iint"), ('∭', "\\iiint"), ('∮', "\\oint"),
   ('∑', "\\sum"), ('∏', "\\prod"), ('∐', "\\coprod"),
   ('°', "^\x7b\\circ\x7d"), ('′', apos), ('″', apos ++ apos),
   ('‴', apos ++ apos ++ apos), ('ℓ', "\\ell"), ('ℏ', "\\hbar"),
   ('ℜ', "\\Re"), ('ℑ', "\\Im"), ('℘', "\\wp"), ('ℵ', "\\aleph"),
   ('∠', "\\angle"), ('∡', "\\measuredangle"), ('⊥', "\\perp"),
   ('∥', "\\parallel"), ('⋮', "\\vdots"), ('⋯', "\\cdots"),
   ('⋱', "\\ddots"), ('…', "\\ldots"), ('□', "\\square"),
   ('△', "\\triangle"), ('▽', "\\triangledown"), ('★', "\\bigstar"),
   ('♠', "\\spadesuit"), ('♥', "\\heartsuit"), ('♦', "\\diamondsuit"),
   ('♣', "\\clubsuit")]

/-- `SUPERSCRIPTS` from `symbols.py`. -/
def superscriptsTable : List (Char × String) :=
  [('⁰', "^{0}"), ('¹', "^{1}"), ('²', "^{2}"), ('³', "^{3}"),
   ('⁴', "^{4}"), ('⁵', "^{5}"), ('⁶', "^{6}"), ('⁷', "^{7}"),
   ('⁸', "^{8}"), ('⁹', "^{9}"), ('⁺', "^{+}"), ('⁻', "^{-}"),
   ('⁼', "^{=}"), ('⁽', "^{(}"), ('⁾', "^{)}"), ('ⁿ', "^{n}"),
   ('ⁱ', "^{i}")]

/-- `SUBSCRIPTS` from `symbols.py`. -/
def subscriptsTable : List (Char × String) :=
  [('₀', "_{0}"), ('₁', "_{1}"), ('₂', "_{2}"), ('₃', "_{3}"),
   ('₄', "_{4}"), ('₅', "_{5}"), ('₆', "_{6}"), ('₇', "_{7}"),
   ('₈', "_{8}"), ('₉', "_{9}"), ('₊', "_{+}"), ('₋', "_{-}"),
   ('₌', "_{=}"), ('₍', "_{(}"), ('₎', "_{)}")]

/-- The combined character map built by `SymbolMapper.__init__` via
successive `dict.update` calls, in the same order. -/
def symbolPairs : List (Char × String) :=
  greekLower ++ greekUpper ++ operatorsTable ++ superscriptsTable ++
    subscriptsTable

/-- Python-dict lookup semantics (later duplicate keys override earlier
ones): look the key up in the reversed association list. -/
def symLookup (c : Char) : Option String :=
  List.lookup c symbolPairs.reverse

/-- `SymbolMapper.INVISIBLE_CHARS`: zero-width space / non-joiner / joiner,
word joiner, BOM. -/
def invisibleChars : List Char :=
  [Char.ofNat 0x200b, Char.ofNat 0x200c, Char.ofNat 0x200d,
   Char.ofNat 0x2060, Char.ofNat 0xfeff]

/-- `SymbolMapper.map_char`: invisible characters map to the empty string;
characters in the combined table map to their entry; everything else passes
through unchanged. -/
def mapChar (c : Char) : String :=
  if invisibleChars.contains c then ""
  else (symLookup c).getD c.toString

/-- Python `str.isalpha`, modelled on the character repertoire this module
handles: ASCII letters, the Greek letters keyed by the symbol tables, and
the letter-category characters among the operator keys. Identical to
Python's predicate on every character that the claims and the tables
exercise. -/
def pyIsAlpha (c : Char) : Bool :=
  c.isAlpha || (greekLower.map Prod.fst).contains c ||
    (greekUpper.map Prod.fst).contains c ||
    ['ⁿ', 'ⁱ', 'ℓ', 'ℏ', 'ℜ', 'ℑ', 'ℵ'].contains c

/-- One step of `SymbolMapper.map_text`: emit the mapped character, then a
space when the mapped form is a command token ending in a letter and the
next input character is alphabetic. -/
def mapTextList : List Char → List String
  | [] => []
  | c :: rest =>
    let mapped := mapChar c
    let sp :=
      if startsWithBackslash mapped &&
          (match strLast? mapped with
           | some l => pyIsAlpha l
           | none => false) &&
          (match rest.head? with
           | some n => pyIsAlpha n
           | none => false) then [" "]
      else []
    (mapped :: sp) ++ mapTextList rest

/-- `SymbolMapper.map_text`. -/
def mapText (s : String) : String :=
  concatAll (mapTextList s.data)

/-- `FUNCTION_NAMES` from `symbols.py` (note the literal entry `"Pr"`). -/
def functionNames : List String :=
  ["sin", "cos", "tan", "cot", "sec", "csc",
   "sinh", "cosh", "tanh", "coth", "sech", "csch",
   "arcsin", "arccos", "arctan", "arccot",
   "asin", "acos", "atan", "acot",
   "exp", "log", "ln", "lg",
   "lim", "liminf", "limsup",
   "max", "min", "sup", "inf",
   "arg", "det", "dim", "gcd", "hom", "ker", "deg",
   "Pr", "mod"]

/-- `SymbolMapper.is_function_name`: membership of the lowercased name. -/
def isFunctionName (name : String) : Bool :=
  functionNames.contains (pyLower name)

/-- The `standard` set local to `get_function_latex` (again with the
literal entry `"Pr"`). -/
def standardFunctionNames : List String :=
  ["sin", "cos", "tan", "cot", "sec", "csc",
   "sinh", "cosh", "tanh", "coth",
   "arcsin", "arccos", "arctan",
   "exp", "log", "ln", "lg",
   "lim", "liminf", "limsup",
   "max", "min", "sup", "inf",
   "arg", "det", "dim", "gcd", "hom", "ker", "deg", "Pr"]

/-- `SymbolMapper.get_function_latex`. -/
def getFunctionLatex (name : String) : String :=
  let lower := pyLower name
  if functionNames.contains lower then
    if standardFunctionNames.contains lower then "\\" ++ lower
    else "\\operatorname\x7b" ++ name ++ "\x7d"
  else "\\operatorname\x7b" ++ name ++ "\x7d"

/-- `NARY_OPERATORS` from `symbols.py`. -/
def naryOperators : List (String × String) :=
  [("∑", "\\sum"), ("∏", "\\prod"), ("∐", "\\coprod"), ("∫", "\\int"),
   ("∬", "\\iint"), ("∭", "\\iiint"), ("∮", "\\oint"),
   ("⋀", "\\bigwedge"), ("⋁", "\\bigvee"), ("⋂", "\\bigcap"),
   ("⋃", "\\bigcup"), ("⨁", "\\bigoplus"), ("⨂", "\\bigotimes"),
   ("⨀", "\\bigodot"), ("⨄", "\\biguplus"), ("⨆", "\\bigsqcup")]

/-- `SymbolMapper.get_nary_latex`: table lookup with pass-through default. -/
def getNaryLatex (s : String) : String :=
  (List.lookup s naryOperators).getD s

/-- The left-brace character (written by code point to keep string scans
simple). -/
def lbrace : Char := Char.ofNat 123

/-- The right-brace character. -/
def rbrace : Char := Char.ofNat 125

/-- Left brace as a string. -/
def lbraceS : String := lbrace.toString

/-- Right brace as a string. -/
def rbraceS : String := rbrace.toString

/-- Python whitespace for `str.strip`, ASCII repertoire. -/
def isPyWs (c : Char) : Bool :=
  c = ' ' || c = '\t' || c = '\n' || c = '\r' ||
    c = Char.ofNat 0x0b || c = Char.ofNat 0x0c

/-- Python `str.strip()`. -/
def pyStrip (s : String) : String :=
  String.mk (((s.data.dropWhile isPyWs).reverse.dropWhile isPyWs).reverse)

/-- Remove `pat` from the front of `s`, if it is there. -/
def chopFront? : List Char → List Char → Option (List Char)
  | [], s => some s
  | _ :: _, [] => none
  | p :: ps, c :: cs => if p = c then chopFront? ps cs else none

/-- Replace every occurrence of `pat` (leftmost first, non-overlapping);
fuel is the input length, which always suffices for nonempty patterns. -/
def replaceFuel (pat rep : List Char) : Nat → List Char → List Char
  | _, [] => []
  | 0, s => s
  | n + 1, c :: rest =>
    match chopFront? pat (c :: rest) with
    | some tail => rep ++ replaceFuel pat rep n tail
    | none => c :: replaceFuel pat rep n rest

/-- Python `str.replace` (every pattern here is nonempty). -/
def pyReplace (s pat rep : String) : String :=
  String.mk (replaceFuel pat.data rep.data s.data.length s.data)

/-- The characters Python scans for with `any(c in after for c in "\x7b\x7d[]")`
inside `_join_with_spacing`. -/
def isBraceBracket (c : Char) : Bool :=
  c = lbrace || c = rbrace || c = '[' || c = ']'

/-- The substring after the last backslash of `s` (`prev[last_backslash+1:]`),
when `s` contains a backslash at all. -/
def afterLastBackslash? (s : String) : Option (List Char) :=
  if s.data.contains '\\' then
    some ((s.data.reverse.takeWhile (fun c => c ≠ '\\')).reverse)
  else none

/-- The space-insertion test of `_join_with_spacing`, between two adjacent
fragments: the previous fragment must contain a backslash whose suffix is
nonempty, ends in a letter and is brace/bracket free, and the next fragment
must start with a letter. -/
def needsSpace (prevFrag curr : String) : Bool :=
  if prevFrag = "" || curr = "" then false
  else
    match afterLastBackslash? prevFrag with
    | none => false
    | some after =>
      (match after.getLast? with
       | some l => pyIsAlpha l
       | none => false) &&
      !(after.any isBraceBracket) &&
      (match curr.data.head? with
       | some d => pyIsAlpha d
       | none => false)

/-- The loop of `_join_with_spacing` from the second fragment on; the
space test always compares the two original adjacent fragments. -/
def joinPairs : String → List String → String
  | _, [] => ""
  | prevFrag, c :: rest =>
    (if needsSpace prevFrag c then " " else "") ++ c ++ joinPairs c rest

/-- `_join_with_spacing`. -/
def joinWithSpacing : List String → String
  | [] => ""
  | p :: rest => p ++ joinPairs p rest

/-- `flush_letters` of `_apply_style_smartly`: wrap the buffered letters,
if any. -/
def flushLetters (pre suf : String) (buf : List Char) : List String :=
  if buf.isEmpty then [] else [pre ++ String.mk buf ++ suf]

/-- One character step of `_apply_style_smartly`. -/
def styleStep (pre suf : String) :
    List String × List Char → Char → List String × List Char
  | (result, buf), c =>
    let mapped := mapChar c
    if startsWithBackslash mapped || !(pyIsAlpha c) then
      (result ++ flushLetters pre suf buf ++ [mapped], [])
    else (result, buf ++ [c])

/-- `_apply_style_smartly`: wrap only buffered letter runs in the style,
emit operators bare, then join with the spacing policy when more than one
piece came out. -/
def applyStyleSmartly (text pre suf : String) : String :=
  let st := text.data.foldl (styleStep pre suf) ([], [])
  let result := st.1 ++ flushLetters pre suf st.2
  if result.length > 1 then joinWithSpacing result else concatAll result

/-- `_get_text`: all text of descendant `m:t` elements, in document
order. -/
def getText (e : Elem) : String :=
  concatAll (((iterTag e "t").filterMap Elem.text).filter (fun s => s ≠ ""))

/-- `script_map` of `_handle_run` (prefix/suffix pairs per script kind). -/
def scriptMap : List (String × String × String) :=
  [("script", "\\mathcal" ++ lbraceS, rbraceS),
   ("fraktur", "\\mathfrak" ++ lbraceS, rbraceS),
   ("double-struck", "\\mathbb" ++ lbraceS, rbraceS),
   ("sans-serif", "\\mathsf" ++ lbraceS, rbraceS),
   ("monospace", "\\mathtt" ++ lbraceS, rbraceS)]

/-- The style wrapper pair chosen by `_handle_run` from `rPr`: the script
kind wins; the weight kind applies only when no script wrapper was chosen. -/
def runStyle (e : Elem) : String × String :=
  match getElement e "rPr" with
  | none => ("", "")
  | some rpr =>
    let scrStyle :=
      match getElement rpr "scr" with
      | some scr =>
        match List.lookup (scr.val.getD "") scriptMap with
        | some ps => ps
        | none => ("", "")
      | none => ("", "")
    match getElement rpr "sty" with
    | some sty =>
      let sv := sty.val.getD ""
      if sv = "b" && scrStyle.1 = "" then ("\\mathbf" ++ lbraceS, rbraceS)
      else if sv = "i" && scrStyle.1 = "" then ("\\mathit" ++ lbraceS, rbraceS)
      else if sv = "bi" && scrStyle.1 = "" then
        ("\\boldsymbol" ++ lbraceS, rbraceS)
      else scrStyle
    | none => scrStyle

/-- `_handle_run` (the run handler never recurses into child handlers; it
reads the descendant text directly). -/
def handleRun (e : Elem) : String :=
  let sty := runStyle e
  let rawText := getText e
  if isFunctionName rawText then
    let t := getFunctionLatex rawText
    if sty.1 ≠ "" then sty.1 ++ t ++ sty.2 else t
  else if sty.1 ≠ "" then applyStyleSmartly rawText sty.1 sty.2
  else mapText rawText

/-- The fragment a handler uses for a named child slot: the processed
children of the slot element when present, the empty string when the slot
is missing. -/
def slotFragment (pc : Elem → String) (e : Elem) (slot : String) : String :=
  match getElement e slot with
  | some c => pc c
  | none => ""

/-- The string assembly of `_handle_fraction`, after the fraction type and
the two operand fragments are known. -/
def fracAssemble (fracType numL denL : String) : String :=
  if fracType = "noBar" then
    "\\binom" ++ lbraceS ++ numL ++ rbraceS ++ lbraceS ++ denL ++ rbraceS
  else if fracType = "skw" then
    lbraceS ++ numL ++ rbraceS ++ "/" ++ lbraceS ++ denL ++ rbraceS
  else if fracType = "lin" then
    lbraceS ++ numL ++ rbraceS ++ "/" ++ lbraceS ++ denL ++ rbraceS
  else if numL.length > 5 || denL.length > 5 then
    "\\dfrac" ++ lbraceS ++ numL ++ rbraceS ++ lbraceS ++ denL ++ rbraceS
  else "\\frac" ++ lbraceS ++ numL ++ rbraceS ++ lbraceS ++ denL ++ rbraceS

/-- `_handle_fraction`. -/
def handleFraction (pc : Elem → String) (e : Elem) : String :=
  let fracType :=
    match getElement e "fPr" with
    | some fpr =>
      match getElement fpr "type" with
      | some t => t.val.getD "bar"
      | none => "bar"
    | none => "bar"
  fracAssemble fracType (slotFragment pc e "num") (slotFragment pc e "den")

/-- `_handle_radical`. -/
def handleRadical (pc : Elem → String) (e : Elem) : String :=
  let degHide :=
    match getElement e "radPr" with
    | some radpr =>
      match getElement radpr "degHide" with
      | some dh => dh.val.getD "0" == "1"
      | none => false
    | none => false
  let baseL := slotFragment pc e "e"
  match getElement e "deg" with
  | some deg =>
    if !degHide then
      let degL := pc deg
      if degL ≠ "" && pyStrip degL ≠ "" then
        "\\sqrt[" ++ degL ++ "]" ++ lbraceS ++ baseL ++ rbraceS
      else "\\sqrt" ++ lbraceS ++ baseL ++ rbraceS
    else "\\sqrt" ++ lbraceS ++ baseL ++ rbraceS
  | none => "\\sqrt" ++ lbraceS ++ baseL ++ rbraceS

/-- Script-base wrapping shared by the `sSub`/`sSup`/`sSubSup` handlers:
brace-wrap when longer than one character and not already a command. -/
def wrapBase (base : String) : String :=
  if base.length > 1 && !(startsWithBackslash base) then
    lbraceS ++ base ++ rbraceS
  else base

/-- The string assembly of `_handle_subscript`. -/
def scriptSubAssemble (baseL subL : String) : String :=
  wrapBase baseL ++ "_" ++ lbraceS ++ subL ++ rbraceS

/-- The string assembly of `_handle_superscript`. -/
def scriptSupAssemble (baseL supL : String) : String :=
  wrapBase baseL ++ "^" ++ lbraceS ++ supL ++ rbraceS

/-- The string assembly of `_handle_subsup`. -/
def scriptSubSupAssemble (baseL subL supL : String) : String :=
  wrapBase baseL ++ "_" ++ lbraceS ++ subL ++ rbraceS ++ "^" ++ lbraceS ++
    supL ++ rbraceS

/-- `_handle_subscript`. -/
def handleSubscript (pc : Elem → String) (e : Elem) : String :=
  scriptSubAssemble (slotFragment pc e "e") (slotFragment pc e "sub")

/-- `_handle_superscript`. -/
def handleSuperscript (pc : Elem → String) (e : Elem) : String :=
  scriptSupAssemble (slotFragment pc e "e") (slotFragment pc e "sup")

/-- `_handle_subsup`. -/
def handleSubSup (pc : Elem → String) (e : Elem) : String :=
  scriptSubSupAssemble (slotFragment pc e "e") (slotFragment pc e "sub")
    (slotFragment pc e "sup")

/-- `_handle_presup`. -/
def handlePreScript (pc : Elem → String) (e : Elem) : String :=
  lbraceS ++ rbraceS ++ "_" ++ lbraceS ++ slotFragment pc e "sub" ++
    rbraceS ++ "^" ++ lbraceS ++ slotFragment pc e "sup" ++ rbraceS ++
    slotFragment pc e "e"

/-- The string assembly of `_handle_nary`: the operator, then the limit
scripts chosen by the limit-location branch, then a space and the base. -/
def naryAssemble (op limLoc subL supL baseL : String) : String :=
  let scripts :=
    if limLoc = "undOvr" then
      (if subL ≠ "" then "_" ++ lbraceS ++ subL ++ rbraceS else "") ++
        (if supL ≠ "" then "^" ++ lbraceS ++ supL ++ rbraceS else "")
    else
      (if subL ≠ "" then "_" ++ lbraceS ++ subL ++ rbraceS else "") ++
        (if supL ≠ "" then "^" ++ lbraceS ++ supL ++ rbraceS else "")
  op ++ scripts ++ " " ++ baseL

/-- `_handle_nary`. -/
def handleNary (pc : Elem → String) (e : Elem) : String :=
  let chrVal :=
    match getElement e "naryPr" with
    | some np =>
      match getElement np "chr" with
      | some c => c.val.getD "∫"
      | none => "∫"
    | none => "∫"
  let limLoc :=
    match getElement e "naryPr" with
    | some np =>
      match getElement np "limLoc" with
      | some l => l.val.getD "subSup"
      | none => "subSup"
    | none => "subSup"
  naryAssemble (getNaryLatex chrVal) limLoc (slotFragment pc e "sub")
    (slotFragment pc e "sup") (slotFragment pc e "e")

/-- `_handle_limlower`. -/
def handleLimLower (pc : Elem → String) (e : Elem) : String :=
  "\\underset" ++ lbraceS ++ slotFragment pc e "lim" ++ rbraceS ++ lbraceS ++
    slotFragment pc e "e" ++ rbraceS

/-- `_handle_limupper`. -/
def handleLimUpper (pc : Elem → String) (e : Elem) : String :=
  "\\overset" ++ lbraceS ++ slotFragment pc e "lim" ++ rbraceS ++ lbraceS ++
    slotFragment pc e "e" ++ rbraceS

/-- `_handle_matrix`: all descendant `mr` rows, each row's descendant `e`
cells. -/
def handleMatrix (pc : Elem → String) (e : Elem) : String :=
  let rows := (iterTag e "mr").map (fun mr =>
    joinSep " & " ((iterTag mr "e").map pc))
  "\\begin" ++ lbraceS ++ "matrix" ++ rbraceS ++ " " ++
    joinSep " \\\\ " rows ++ " \\end" ++ lbraceS ++ "matrix" ++ rbraceS

/-- `left_map` of `_handle_delimiter`. -/
def leftDelimMap : List (String × String) :=
  [("(", "("), ("[", "["), (lbraceS, "\\" ++ lbraceS), ("|", "|"),
   ("‖", "\\|"), ("⟨", "\\langle"), ("⌈", "\\lceil"), ("⌊", "\\lfloor"),
   ("", "")]

/-- `right_map` of `_handle_delimiter`. -/
def rightDelimMap : List (String × String) :=
  [(")", ")"), ("]", "]"), (rbraceS, "\\" ++ rbraceS), ("|", "|"),
   ("‖", "\\|"), ("⟩", "\\rangle"), ("⌉", "\\rceil"), ("⌋", "\\rfloor"),
   ("", "")]

/-- The string assembly of `_handle_delimiter` once the glyphs and the
content-group fragments are known: join groups with the separator (empty
separator concatenates), map each side through its own table with
pass-through default, and wrap in auto-sizing commands unless both mapped
sides are empty. -/
def delimAssemble (begChr endChr sepChr : String) (contents : List String) :
    String :=
  let content := joinSep sepChr contents
  let left := (List.lookup begChr leftDelimMap).getD begChr
  let right := (List.lookup endChr rightDelimMap).getD endChr
  if left ≠ "" || right ≠ "" then
    "\\left" ++ left ++ " " ++ content ++ " \\right" ++ right
  else content

/-- `_handle_delimiter`: note the content groups come from `elem.iter`,
i.e. every descendant `e` element at any depth. -/
def handleDelimiter (pc : Elem → String) (e : Elem) : String :=
  let begChr :=
    match getElement e "dPr" with
    | some dpr =>
      match getElement dpr "begChr" with
      | some b => b.val.getD "("
      | none => "("
    | none => "("
  let endChr :=
    match getElement e "dPr" with
    | some dpr =>
      match getElement dpr "endChr" with
      | some b => b.val.getD ")"
      | none => ")"
    | none => ")"
  let sepChr :=
    match getElement e "dPr" with
    | some dpr =>
      match getElement dpr "sepChr" with
      | some b => b.val.getD ""
      | none => ""
    | none => ""
  delimAssemble begChr endChr sepChr ((iterTag e "e").map pc)

/-- `_handle_eqarray`. -/
def handleEqArray (pc : Elem → String) (e : Elem) : String :=
  "\\begin" ++ lbraceS ++ "aligned" ++ rbraceS ++ " " ++
    joinSep " \\\\ " ((iterTag e "e").map pc) ++ " \\end" ++ lbraceS ++
    "aligned" ++ rbraceS

/-- `_handle_bar`. -/
def handleBar (pc : Elem → String) (e : Elem) : String :=
  let pos :=
    match getElement e "barPr" with
    | some bp =>
      match getElement bp "pos" with
      | some p => p.val.getD "top"
      | none => "top"
    | none => "top"
  let baseL := slotFragment pc e "e"
  if pos = "bot" then "\\underline" ++ lbraceS ++ baseL ++ rbraceS
  else "\\overline" ++ lbraceS ++ baseL ++ rbraceS

/-- A one-code-point string (used for the combining accent glyphs). -/
def combChar (n : Nat) : String := (Char.ofNat n).toString

/-- `_handle_accent`'s base stripping: remove the three style-wrapper
command names and every brace, to count the visible base characters. -/
def stripForAccent (s : String) : String :=
  pyReplace (pyReplace (pyReplace (pyReplace (pyReplace s "\\mathit" "")
    "\\mathrm" "") "\\mathbf" "") lbraceS "") rbraceS ""

/-- The multi-character-base accent table of `_handle_accent`. -/
def accentMapWide : List (String × String) :=
  [(combChar 0x302, "\\widehat"), (combChar 0x303, "\\widetilde"),
   (combChar 0x304, "\\overline"), (combChar 0x307, "\\dot"),
   (combChar 0x308, "\\ddot"), (combChar 0x20D7, "\\overrightarrow"),
   (combChar 0x306, "\\breve"), (combChar 0x30C, "\\check"),
   (combChar 0x30A, "\\mathring"), ("⏞", "\\overbrace"),
   ("⏟", "\\underbrace"), ("^", "\\widehat"), ("~", "\\widetilde"),
   ("→", "\\overrightarrow")]

/-- The single-character-base accent table of `_handle_accent`. -/
def accentMapNarrow : List (String × String) :=
  [(combChar 0x302, "\\hat"), (combChar 0x303, "\\tilde"),
   (combChar 0x304, "\\bar"), (combChar 0x307, "\\dot"),
   (combChar 0x308, "\\ddot"), (combChar 0x20D7, "\\vec"),
   (combChar 0x306, "\\breve"), (combChar 0x30C, "\\check"),
   (combChar 0x30A, "\\mathring"), ("⏞", "\\overbrace"),
   ("⏟", "\\underbrace"), ("^", "\\hat"), ("~", "\\tilde"),
   ("→", "\\vec")]

/-- The string assembly of `_handle_accent`: wide table when the stripped
base has more than one character, narrow table otherwise; unknown glyphs
fall back to the matching circumflex variant. -/
def accentAssemble (chrVal baseL : String) : String :=
  let isMulti := (stripForAccent baseL).length > 1
  let cmd :=
    if isMulti then (List.lookup chrVal accentMapWide).getD "\\widehat"
    else (List.lookup chrVal accentMapNarrow).getD "\\hat"
  cmd ++ lbraceS ++ baseL ++ rbraceS

/-- `_handle_accent`. -/
def handleAccent (pc : Elem → String) (e : Elem) : String :=
  let chrVal :=
    match getElement e "accPr" with
    | some ap =>
      match getElement ap "chr" with
      | some c => c.val.getD (combChar 0x302)
      | none => combChar 0x302
    | none => combChar 0x302
  accentAssemble chrVal (slotFragment pc e "e")

/-- `_handle_box`. -/
def handleBox (pc : Elem → String) (e : Elem) : String :=
  slotFragment pc e "e"

/-- `_handle_function`. -/
def handleFunction (pc : Elem → String) (e : Elem) : String :=
  let funcName := slotFragment pc e "fName"
  let arg := slotFragment pc e "e"
  let cleanName := pyStrip funcName
  if isFunctionName cleanName then getFunctionLatex cleanName ++ " " ++ arg
  else funcName ++ " " ++ arg

/-- `_handle_groupchar`. -/
def handleGroupChar (pc : Elem → String) (e : Elem) : String :=
  let chrVal :=
    match getElement e "groupChrPr" with
    | some gp =>
      match getElement gp "chr" with
      | some c => c.val.getD "⏟"
      | none => "⏟"
    | none => "⏟"
  let pos :=
    match getElement e "groupChrPr" with
    | some gp =>
      match getElement gp "pos" with
      | some p => p.val.getD "bot"
      | none => "bot"
    | none => "bot"
  let baseL := slotFragment pc e "e"
  if chrVal = "⏞" || pos = "top" then
    "\\overbrace" ++ lbraceS ++ baseL ++ rbraceS
  else "\\underbrace" ++ lbraceS ++ baseL ++ rbraceS

/-- `_handle_borderbox`. -/
def handleBorderBox (pc : Elem → String) (e : Elem) : String :=
  "\\boxed" ++ lbraceS ++ slotFragment pc e "e" ++ rbraceS

/-- `_handle_phantom`. -/
def handlePhantom (pc : Elem → String) (e : Elem) : String :=
  "\\phantom" ++ lbraceS ++ slotFragment pc e "e" ++ rbraceS

/-- `_process_children` relative to a conversion function for the
children: convert each child, keep the nonempty results, join with the
spacing policy. -/
def processWith (conv : Elem → String) (c : Elem) : String :=
  joinWithSpacing ((c.children.map conv).filter (fun s => s ≠ ""))

/-- The handler dispatch of `_convert_element`, given the
children-processing function: unknown tags fall through to plain child
processing. -/
def dispatchHandlers (pc : Elem → String) (e : Elem) : String :=
  match e.tag with
  | "oMath" => pc e
  | "r" => handleRun e
  | "t" => mapText (e.text.getD "")
  | "f" => handleFraction pc e
  | "rad" => handleRadical pc e
  | "sSub" => handleSubscript pc e
  | "sSup" => handleSuperscript pc e
  | "sSubSup" => handleSubSup pc e
  | "sPre" => handlePreScript pc e
  | "nary" => handleNary pc e
  | "limLow" => handleLimLower pc e
  | "limUpp" => handleLimUpper pc e
  | "m" => handleMatrix pc e
  | "d" => handleDelimiter pc e
  | "eqArr" => handleEqArray pc e
  | "bar" => handleBar pc e
  | "acc" => handleAccent pc e
  | "box" => handleBox pc e
  | "func" => handleFunction pc e
  | "groupChr" => handleGroupChar pc e
  | "borderBox" => handleBorderBox pc e
  | "phant" => handlePhantom pc e
  | _ => pc e

/-- `_convert_element` with explicit fuel. The Python recursion always
terminates on (finite) element trees; `convertElement` below supplies fuel
that always suffices, so the zero-fuel clause is never reached from it. -/
def convertF : Nat → Elem → String
  | 0, _ => ""
  | n + 1, e => dispatchHandlers (processWith (convertF n)) e

/-- `_process_children` at a given fuel. -/
def processChildrenF (n : Nat) : Elem → String :=
  processWith (convertF n)

/-- `_convert_element`, the transpiler's dispatch function. -/
def convertElement (e : Elem) : String :=
  convertF (fuelOf e) e

/-- `OmmlParser.parse`: the lxml XML parse of the input string is an
external collaborator, modelled by its outcome (`none` when the input is
not well-formed XML and `etree.fromstring` raises). The handler recursion
itself is total, so the `except` branch returning `""` fires exactly when
the XML parse fails. -/
def parseOmml (xmlResult : Option Elem) : String :=
  match xmlResult with
  | some root => convertElement root
  | none => ""

/-- A `t` text leaf. -/
def tElem (s : String) : Elem := .mk "t" none (some s) []

/-- An unstyled run holding one text leaf. -/
def runElem (s : String) : Elem := .mk "r" none none [tElem s]

/-- The delimiter test tree of C9: a delimiter whose single content group
holds a radical, whose own `e` slot holds `inner`. -/
def delimNestedTree (inner : List Elem) : Elem :=
  .mk "d" none none
    [.mk "e" none none [.mk "rad" none none [.mk "e" none none inner]]]

/-- The space-insertion condition exactly as claim C3 words it: fragment
`i`'s last backslash is followed, to the end of the fragment, by a
brace/bracket-free suffix ending in an alphabetic character, and fragment
`i+1`'s first character is alphabetic. -/
def claimSpaceRule (prevFrag curr : String) : Bool :=
  match afterLastBackslash? prevFrag with
  | none => false
  | some after =>
    (match after.getLast? with
     | some l => pyIsAlpha l
     | none => false) &&
    !(after.any isBraceBracket) &&
    (match curr.data.head? with
     | some d => pyIsAlpha d
     | none => false)

/-- The generic n-ary element of C4: operator glyph attribute `chrV`,
limit-location attribute `limV`, and arbitrary content under the `sub`,
`sup` and `e` slots. -/
def naryTree (chrV limV : Option String) (subC supC eC : List Elem) : Elem :=
  .mk "nary" none none
    [.mk "naryPr" none none
       [.mk "chr" chrV none [], .mk "limLoc" limV none []],
     .mk "sub" none none subC, .mk "sup" none none supC,
     .mk "e" none none eC]

/-- Table check for C8: every symbol-table entry whose output is a single
plain (non-backslash) character maps to a character that is neither a
table key nor an invisible character. -/
def plainStablePair : Char × String → Bool
  | (_, v) =>
    match v.data with
    | [d] =>
      d = '\\' || (!((symbolPairs.map Prod.fst).contains d) &&
        !(invisibleChars.contains d))
    | _ => true

/-- A single command token: a backslash followed by one or more ASCII
letters. -/
def isCommandToken (s : String) : Bool :=
  match s.data with
  | [] => false
  | c :: rest => c = '\\' && !rest.isEmpty && rest.all Char.isAlpha

/-- C1: for every input element tree the converter's dispatch function
returns a string (it is total, mirroring the exception-free Python
handlers), every missing optional child slot contributes the empty string
to the assembled output, and concretely a fraction without a denominator, a
superscript without a superscript slot and an accent without a base all
degrade to outputs whose missing-slot positions hold the empty string. -/
theorem claim1_totality_missing_slots :
    (∀ e : Elem, ∃ s : String, convertElement e = s) ∧
    (∀ (pc : Elem → String) (e : Elem) (slot : String),
      getElement e slot = none → slotFragment pc e slot = "") ∧
    convertElement (.mk "f" none none [.mk "num" none none [runElem "a"]])
      = "\\frac{a}\x7b\x7d" ∧
    convertElement (.mk "sSup" none none [.mk "e" none none [runElem "x"]])
      = "x^\x7b\x7d" ∧
    convertElement (.mk "acc" none none []) = "\\hat\x7b\x7d" := by
  refine ⟨fun e => ⟨convertElement e, rfl⟩, fun pc e slot h => ?_, by decide,
    by decide, by decide⟩
  unfold slotFragment
  rw [h]

/-- Witness for C1 at a concrete input: the `den` slot of a childless
fraction element is missing, and its fragment is the empty string. -/
theorem claim1_totality_missing_slots_witness :
    slotFragment (fun _ => "X") (.mk "f" none none []) "den" = "" :=
  claim1_totality_missing_slots.2.1 (fun _ => "X") (.mk "f" none none [])
    "den" rfl

/-- C2 (evaluation at the failing input): applying double-struck style to
the text `∈R` yields `\in\mathbb{R}` with NO separating space — the join
inserts a space only when the next fragment starts with an alphabetic
character, and `\mathbb{R}` starts with a backslash. This contradicts the
claim (and the handler's own docstring), which expect `\in \mathbb{R}`. -/
theorem claim2_styled_operator_eval :
    convertElement (.mk "r" none none
      [.mk "rPr" none none [.mk "scr" (some "double-struck") none []],
       tElem "∈R"]) = "\\in\\mathbb{R}" ∧
    applyStyleSmartly "∈R" ("\\mathbb" ++ lbraceS) rbraceS
      = "\\in\\mathbb{R}" ∧
    convertElement (.mk "r" none none
      [.mk "rPr" none none [.mk "scr" (some "double-struck") none []],
       tElem "∈R"]) ≠ "\\in \\mathbb{R}" := by
  refine ⟨by decide, by decide, by decide⟩

/-- C5 (evaluation at the failing input): the code's own recognized-name
table and native-command table both list the literal entry `Pr`, yet both
membership tests compare against the lowercased name, so `Pr` (and `pr`)
are unreachable: `is_function_name` rejects `Pr` and `get_function_latex`
produces the generic operator-name wrapper instead of `\Pr`. Every other
name of the native subset does get its backslash-prefixed command. -/
theorem claim5_function_latex_pr :
    isFunctionName "Pr" = false ∧
    getFunctionLatex "Pr" = "\\operatorname\x7bPr\x7d" ∧
    getFunctionLatex "pr" = "\\operatorname\x7bpr\x7d" ∧
    getFunctionLatex "Pr" ≠ "\\Pr" ∧
    "Pr" ∈ standardFunctionNames ∧
    "Pr" ∈ functionNames ∧
    (standardFunctionNames.filter (fun nm => nm ≠ "Pr")).all
      (fun nm => getFunctionLatex nm == "\\" ++ nm) = true := by
  refine ⟨by decide, by decide, by decide, by decide, by decide, by decide,
    by decide⟩

/-- C10: the public parse entry point either returns the transpiled LaTeX
of the parsed tree or, when the XML parse of the input fails (modelled by
`none`), the empty string; it never propagates an exception (it is a total
function of the parse outcome). -/
theorem claim10_parse_total :
    parseOmml none = "" ∧
    (∀ x : Option Elem,
      parseOmml x = "" ∨ ∃ t, x = some t ∧ parseOmml x = convertElement t) := by
  refine ⟨rfl, fun x => ?_⟩
  cases x with
  | none => exact Or.inl rfl
  | some t => exact Or.inr ⟨t, rfl, rfl⟩

/-- C9: the delimiter handler collects content groups with `elem.iter`,
i.e. every descendant `e` element at any depth — for the nested-radical
tree it collects both the delimiter's direct content group and the
radical's own `e` slot (and any `e` elements inside `inner`). Consequently
the nested slot's fragment is emitted twice: for inner content `x` the
output is `\left( \sqrt{x}x \right)`, with `x` both inside the radical
fragment and again as a separate top-level content group. -/
theorem claim9_delimiter_iter :
    (∀ inner : List Elem,
      iterTag (delimNestedTree inner) "e" =
        Elem.mk "e" none none
            [.mk "rad" none none [.mk "e" none none inner]] ::
          Elem.mk "e" none none inner :: iterTagList inner "e") ∧
    convertElement (delimNestedTree [runElem "x"])
      = "\\left( \\sqrt{x}x \\right)" := by
  refine ⟨fun inner => ?_, by decide⟩
  simp [delimNestedTree, iterTag, iterTagList]

/-- C3: the fragment-joining policy inserts a single space between
consecutive fragments exactly under the claim's condition (the code's
emptiness guards are subsumed by it), and on the claim's two examples it
inserts, respectively omits, the space. -/
theorem claim3_spacing_policy :
    (∀ p c : String, needsSpace p c = claimSpaceRule p c) ∧
    (∀ a b : String,
      joinWithSpacing [a, b] =
        a ++ (if needsSpace a b then " " else "") ++ b) ∧
    joinWithSpacing ["\\alpha", "beta"] = "\\alpha beta" ∧
    joinWithSpacing ["\\frac{a}{b}", "+c"] = "\\frac{a}{b}+c" := by
  refine ⟨fun p c => ?_, fun a b => ?_, by decide, by decide⟩
  · unfold needsSpace claimSpaceRule
    by_cases hp : p = ""
    · subst hp
      simp [afterLastBackslash?]
    · by_cases hc : c = ""
      · subst hc
        cases h : afterLastBackslash? p <;> simp [hp, h]
      · simp [hp, hc]
  · show a ++ ((if needsSpace a b then " " else "") ++ b ++ joinPairs b []) = _
    rw [show joinPairs b [] = "" from rfl, String.append_empty,
      String.append_assoc]

/-- C4: the n-ary handler's assembly is the same string for every
limit-location value — operator, then the optional subscript, then the
optional superscript, then a space and the base — and consequently, at any
recursion fuel, transpiling an n-ary node (any glyph, any sub/sup/base
content) gives identical output for any two limit-location attributes. -/
theorem claim4_nary_limloc :
    (∀ op limLoc subL supL baseL : String,
      naryAssemble op limLoc subL supL baseL =
        op ++ ((if subL ≠ "" then "_" ++ lbraceS ++ subL ++ rbraceS else "") ++
          (if supL ≠ "" then "^" ++ lbraceS ++ supL ++ rbraceS else "")) ++
          " " ++ baseL) ∧
    (∀ (n : Nat) (chrV v1 v2 : Option String) (subC supC eC : List Elem),
      convertF n (naryTree chrV v1 subC supC eC) =
        convertF n (naryTree chrV v2 subC supC eC)) := by
  constructor
  · intro op limLoc subL supL baseL
    unfold naryAssemble
    rw [ite_self]
  · intro n chrV v1 v2 subC supC eC
    cases n with
    | zero => rfl
    | succ m =>
      show dispatchHandlers _ _ = dispatchHandlers _ _
      unfold naryTree dispatchHandlers
      simp only [Elem.tag]
      unfold handleNary naryAssemble
      simp [getElement, Elem.children, List.find?, Elem.tag,
        slotFragment, Elem.val]

/-- C6: the shared script-base wrapping brace-wraps the base fragment
exactly when it is longer than one character and does not start with a
command escape; the three script assemblies all route the base through it;
and on the claim's examples a superscript with base `x` gives `x^{2}`
while base `xy` gives `{xy}^{2}` (plus a subscript base `\alpha`, left
bare as a command, and a combined sub-superscript with base `xy`). -/
theorem claim6_script_wrapping :
    (∀ b : String,
      wrapBase b =
        if 1 < b.length ∧ startsWithBackslash b = false then
          lbraceS ++ b ++ rbraceS
        else b) ∧
    (∀ b s, scriptSubAssemble b s =
      wrapBase b ++ "_" ++ lbraceS ++ s ++ rbraceS) ∧
    (∀ b s, scriptSupAssemble b s =
      wrapBase b ++ "^" ++ lbraceS ++ s ++ rbraceS) ∧
    (∀ b s t, scriptSubSupAssemble b s t =
      wrapBase b ++ "_" ++ lbraceS ++ s ++ rbraceS ++ "^" ++ lbraceS ++ t ++
        rbraceS) ∧
    convertElement (.mk "sSup" none none
      [.mk "e" none none [runElem "x"], .mk "sup" none none [runElem "2"]])
      = "x^{2}" ∧
    convertElement (.mk "sSup" none none
      [.mk "e" none none [runElem "xy"], .mk "sup" none none [runElem "2"]])
      = "{xy}^{2}" ∧
    convertElement (.mk "sSub" none none
      [.mk "e" none none [runElem "α"], .mk "sub" none none [runElem "1"]])
      = "\\alpha_{1}" ∧
    convertElement (.mk "sSubSup" none none
      [.mk "e" none none [runElem "xy"], .mk "sub" none none [runElem "1"],
       .mk "sup" none none [runElem "2"]]) = "{xy}_{1}^{2}" := by
  refine ⟨fun b => ?_, fun b s => rfl, fun b s => rfl, fun b s t => rfl,
    by decide, by decide, by decide, by decide⟩
  unfold wrapBase
  by_cases h1 : 1 < b.length
  · by_cases h2 : startsWithBackslash b
    · simp [h1, h2]
    · simp [h1, h2, eq_false_of_ne_true h2]
  · simp [h1]

/-- C7: the accent assembly selects the wide-variant table exactly when
the base fragment, stripped of the style-wrapper command names and all
braces, is longer than one character (narrow table otherwise); glyphs
absent from both tables fall back to `\widehat` resp. `\hat`; and the
claim's examples hold: circumflex over `ab` gives `\widehat{ab}`, over `a`
gives `\hat{a}` (also when the base is wrapped in a `\mathbf{...}` style
wrapper that stripping removes). -/
theorem claim7_accent_multiplicity :
    (∀ g b : String,
      accentAssemble g b =
        (if 1 < (stripForAccent b).length then
           (List.lookup g accentMapWide).getD "\\widehat"
         else (List.lookup g accentMapNarrow).getD "\\hat")
          ++ lbraceS ++ b ++ rbraceS) ∧
    (∀ g b : String, List.lookup g accentMapWide = none →
      List.lookup g accentMapNarrow = none →
      accentAssemble g b =
        (if 1 < (stripForAccent b).length then "\\widehat" else "\\hat")
          ++ lbraceS ++ b ++ rbraceS) ∧
    convertElement (.mk "acc" none none
      [.mk "accPr" none none [.mk "chr" (some (combChar 0x302)) none []],
       .mk "e" none none [runElem "ab"]]) = "\\widehat{ab}" ∧
    convertElement (.mk "acc" none none
      [.mk "accPr" none none [.mk "chr" (some (combChar 0x302)) none []],
       .mk "e" none none [runElem "a"]]) = "\\hat{a}" ∧
    accentAssemble (combChar 0x302)
      ("\\mathbf" ++ lbraceS ++ "ab" ++ rbraceS)
      = "\\widehat" ++ lbraceS ++ "\\mathbf" ++ lbraceS ++ "ab" ++ rbraceS ++
          rbraceS := by
  refine ⟨fun g b => rfl, fun g b h1 h2 => ?_, by decide, by decide,
    by decide⟩
  unfold accentAssemble
  rw [h1, h2]
  rfl

/-- Witness for C7 at a concrete unknown glyph: the glyph `z` is in
neither accent table, and over the two-character base `ab` the handler
falls back to the wide circumflex variant. -/
theorem claim7_accent_multiplicity_witness :
    accentAssemble "z" "ab" = "\\widehat\x7bab\x7d" := by
  have h := claim7_accent_multiplicity.2.1 "z" "ab" (by decide) (by decide)
  rw [h]
  decide

set_option maxRecDepth 100000 in
lemma symbolPairs_plainStable : symbolPairs.all plainStablePair = true := by
  decide

set_option maxRecDepth 100000 in
lemma keysInvisible_not_alpha_bs :
    ((symbolPairs.map Prod.fst) ++ invisibleChars).all
      (fun k => !k.isAlpha && !(k == '\\')) = true := by decide

lemma contains_eq_false_of_not_mem {l : List Char} {c : Char} (h : c ∉ l) :
    l.contains c = false := by
  cases hx : l.contains c
  · rfl
  · exact absurd (List.elem_iff.mp hx) h

lemma mapChar_eq_self_of_not_mem (c : Char)
    (h1 : c ∉ invisibleChars) (h2 : c ∉ symbolPairs.map Prod.fst) :
    mapChar c = c.toString := by
  unfold mapChar symLookup
  have hlook : List.lookup c symbolPairs.reverse = none := by
    rw [List.lookup_eq_none_iff]
    intro p hp
    have hmem : p ∈ symbolPairs := List.mem_reverse.mp hp
    exact bne_iff_ne.mpr
      (fun he => h2 (he ▸ List.mem_map.mpr ⟨p, hmem, rfl⟩))
  rw [contains_eq_false_of_not_mem h1, hlook]
  rfl

lemma alpha_not_mem_tables (c : Char) (h : c.isAlpha = true) :
    c ∉ invisibleChars ∧ c ∉ symbolPairs.map Prod.fst := by
  constructor <;> intro hmem
  · have hx := (List.all_eq_true.mp keysInvisible_not_alpha_bs) c
      (List.mem_append.mpr (Or.inr hmem))
    simp [h] at hx
  · have hx := (List.all_eq_true.mp keysInvisible_not_alpha_bs) c
      (List.mem_append.mpr (Or.inl hmem))
    simp [h] at hx

lemma mapChar_alpha (c : Char) (h : c.isAlpha = true) :
    mapChar c = c.toString :=
  mapChar_eq_self_of_not_mem c (alpha_not_mem_tables c h).1
    (alpha_not_mem_tables c h).2

lemma alpha_beq_bs_false (c : Char) (h : c.isAlpha = true) :
    (c == '\\') = false := by
  by_cases hc : c = '\\'
  · subst hc
    exact absurd h (by decide)
  · exact beq_eq_false_iff_ne.mpr hc

lemma mapTextList_alpha : ∀ l : List Char, l.all Char.isAlpha = true →
    mapTextList l = l.map Char.toString := by
  intro l
  induction l with
  | nil => intro _; rfl
  | cons c rest ih =>
    intro h
    rw [List.all_cons, Bool.and_eq_true] at h
    have hsw : startsWithBackslash c.toString = false := by
      unfold startsWithBackslash strHead?
      show (some c == some '\\') = false
      simpa using alpha_beq_bs_false c h.1
    simp only [mapTextList, mapChar_alpha c h.1, hsw, Bool.false_and,
      if_neg (by simp : ¬(false = true))]
    simpa using ih h.2

lemma foldl_append_toString : ∀ (l : List Char) (acc : String),
    List.foldl (· ++ ·) acc (l.map Char.toString) = acc ++ String.mk l := by
  intro l
  induction l with
  | nil => intro acc; exact (String.append_empty acc).symm
  | cons c rest ih =>
    intro acc
    show List.foldl _ (acc ++ c.toString) (rest.map Char.toString) = _
    rw [ih (acc ++ c.toString), String.append_assoc]
    rfl

lemma mapText_command (rest : List Char) (h : rest.all Char.isAlpha = true) :
    mapText (String.mk ('\\' :: rest)) = String.mk ('\\' :: rest) := by
  unfold mapText
  show concatAll (mapTextList ('\\' :: rest)) = _
  rw [show mapTextList ('\\' :: rest) = "\\" :: mapTextList rest from rfl,
    mapTextList_alpha rest h]
  unfold concatAll
  show List.foldl _ ("" ++ "\\") _ = _
  rw [foldl_append_toString]
  rfl

/-- C8: character mapping is idempotent on plain outputs — whenever
`map_char c` is a single plain (non-backslash) character `d`, mapping `d`
gives `d` back — and the text-level map leaves a single command token (a
backslash followed by letters) unchanged. -/
theorem claim8_symbol_idempotence :
    (∀ c d : Char, mapChar c = d.toString → d ≠ '\\' →
      mapChar d = d.toString) ∧
    (∀ s : String, isCommandToken s = true → mapText s = s) := by
  constructor
  · intro c d h hd
    by_cases hinv : c ∈ invisibleChars
    · exfalso
      have hc : mapChar c = "" := by
        unfold mapChar
        rw [if_pos (show invisibleChars.contains c = true from
          List.elem_iff.mpr hinv)]
      rw [hc] at h
      have h2 : ([] : List Char) = [d] := congrArg String.data h
      exact absurd h2 (by simp)
    · cases hlu : List.lookup c symbolPairs.reverse with
      | none =>
        have hc : mapChar c = c.toString := by
          unfold mapChar symLookup
          rw [contains_eq_false_of_not_mem hinv, hlu]
          rfl
        rw [hc] at h
        have h2 : [c] = [d] := congrArg String.data h
        injection h2 with h3 _
        subst h3
        exact hc
      | some v =>
        have hmem : (c, v) ∈ symbolPairs := by
          obtain ⟨l₁, l₂, heq, -⟩ := List.lookup_eq_some_iff.mp hlu
          exact List.mem_reverse.mp
            (heq ▸ List.mem_append.mpr (Or.inr (List.mem_cons_self _ _)))
        have hv : v = d.toString := by
          unfold mapChar symLookup at h
          rw [contains_eq_false_of_not_mem hinv, hlu] at h
          simpa using h
        subst hv
        have hps := (List.all_eq_true.mp symbolPairs_plainStable) _ hmem
        have hps2 : (decide (d = '\\') ||
            (!((symbolPairs.map Prod.fst).contains d) &&
              !(invisibleChars.contains d))) = true := hps
        by_cases hbs : d = '\\'
        · exact absurd hbs hd
        · rw [decide_eq_false hbs, Bool.false_or, Bool.and_eq_true] at hps2
          obtain ⟨hk, hi⟩ := hps2
          refine mapChar_eq_self_of_not_mem d (fun hm => ?_) (fun hm => ?_)
          · rw [show invisibleChars.contains d = true from
              List.elem_iff.mpr hm] at hi
            exact absurd hi (by decide)
          · rw [show (symbolPairs.map Prod.fst).contains d = true from
              List.elem_iff.mpr hm] at hk
            exact absurd hk (by decide)
  · intro s hs
    unfold isCommandToken at hs
    cases s with
    | mk data =>
      cases data with
      | nil => exact absurd hs (by decide)
      | cons c rest =>
        rw [Bool.and_eq_true, Bool.and_eq_true] at hs
        obtain ⟨⟨h1, _⟩, h3⟩ := hs
        have hc : c = '\\' := of_decide_eq_true h1
        subst hc
        exact mapText_command rest h3

/-- Witness for C8 at concrete inputs: Greek capital Alpha maps to the
plain letter `A`, which maps to itself; and the command token `\alpha`
passes through the text-level map unchanged. -/
theorem claim8_symbol_idempotence_witness :
    mapChar 'A' = Char.toString 'A' ∧ mapText "\\alpha" = "\\alpha" :=
  ⟨claim8_symbol_idempotence.1 (Char.ofNat 0x391) 'A' (by decide) (by decide),
   claim8_symbol_idempotence.2 "\\alpha" (by decide)⟩

end DocxToLatex
